import Mathlib

/-!
# Verification of the RESP key/value server core

A shallow embedding, in Lean 4, of the command-execution engine of the
Python RESP server under `app/`: the protocol encoder (`app/protocol.py`),
the three value kinds (`app/storage/string.py`, `app/storage/list_.py`,
`app/storage/stream.py`) and the keyspace plus blocking dispatcher
(`app/storage/__init__.py`).

Byte strings are modelled as `List Nat` of byte values; Python `int` is
modelled as `Int` (arbitrary precision in both); fallible operations
(Python `raise RedisError`) return `Except`.  Mutating methods are
modelled as state-passing functions returning the new state alongside the
result.
-/

/-- A Python `bytes` value: the list of its byte values. -/
abbrev Bytes := List Nat

/-- The RESP line terminator `\r\n`. -/
def CRLF : Bytes := [13, 10]

/-! ## Decimal numerals

Python's `str(n)` / `int(s)` conversions, used by `encode` in
`app/protocol.py` for lengths and integer replies. -/

/-- The decimal digits of `n`, least significant first (non-empty; `0 ↦ [0]`). -/
def natDigitsRev (n : Nat) : List Nat :=
  if h : n < 10 then [n] else n % 10 :: natDigitsRev (n / 10)
termination_by n
decreasing_by
  exact Nat.div_lt_self (by omega) (by omega)

/-- The ASCII bytes of `str(n)` for a non-negative `n`. -/
def natDec (n : Nat) : Bytes :=
  (natDigitsRev n).reverse.map (fun d => d + 48)

/-- The ASCII bytes of Python `str(n)` for an arbitrary integer. -/
def intDec (n : Int) : Bytes :=
  if n < 0 then 45 :: natDec n.natAbs else natDec n.toNat

/-- Is the byte an ASCII decimal digit? -/
def isDigit (b : Nat) : Bool :=
  decide (48 ≤ b) && decide (b ≤ 57)

/-- Numeric value of a big-endian ASCII digit string. -/
def digitsVal (l : Bytes) : Nat :=
  l.foldl (fun a d => a * 10 + (d - 48)) 0

/-- Parse a non-empty all-digit byte string as a natural number. -/
def parseNat (l : Bytes) : Option Nat :=
  if !l.isEmpty && l.all isDigit then some (digitsVal l) else none

/-- Parse an optional leading `-` then a natural number. -/
def parseInt (l : Bytes) : Option Int :=
  match l with
  | 45 :: rest => (parseNat rest).map (fun n => -(n : Int))
  | _ => (parseNat l).map (fun n => (n : Int))

theorem natDigitsRev_ne_nil (n : Nat) : natDigitsRev n ≠ [] := by
  unfold natDigitsRev
  split <;> simp

theorem natDigitsRev_lt_10 (n : Nat) : ∀ d ∈ natDigitsRev n, d < 10 := by
  induction n using natDigitsRev.induct with
  | case1 n h =>
    unfold natDigitsRev
    simp [h]
  | case2 n h ih =>
    unfold natDigitsRev
    simp only [h, dite_false]
    intro d hd
    rcases List.mem_cons.mp hd with h1 | h2
    · omega
    · exact ih d h2

theorem digitsVal_append_last (l : Bytes) (d : Nat) :
    digitsVal (l ++ [d]) = digitsVal l * 10 + (d - 48) := by
  unfold digitsVal
  rw [List.foldl_append]
  rfl

theorem digitsVal_natDec (n : Nat) : digitsVal (natDec n) = n := by
  induction n using natDigitsRev.induct with
  | case1 n h =>
    unfold natDec natDigitsRev
    simp [h, digitsVal]
  | case2 n h ih =>
    unfold natDec natDigitsRev
    simp only [h, dite_false, List.reverse_cons, List.map_append, List.map_cons,
      List.map_nil]
    rw [digitsVal_append_last]
    unfold natDec at ih
    rw [ih]
    omega

theorem natDec_ne_nil (n : Nat) : natDec n ≠ [] := by
  unfold natDec
  simp [natDigitsRev_ne_nil]

theorem natDec_all_digits (n : Nat) : (natDec n).all isDigit = true := by
  unfold natDec
  rw [List.all_eq_true]
  intro b hb
  simp only [List.mem_map, List.mem_reverse] at hb
  obtain ⟨d, hd, rfl⟩ := hb
  have := natDigitsRev_lt_10 n d hd
  unfold isDigit
  simp
  omega

theorem parseNat_natDec (n : Nat) : parseNat (natDec n) = some n := by
  unfold parseNat
  rw [natDec_all_digits]
  have h1 : (natDec n).isEmpty = false := by
    rcases h : natDec n with _ | ⟨a, l⟩
    · exact absurd h (natDec_ne_nil n)
    · rfl
  rw [h1]
  simp [digitsVal_natDec]

theorem natDec_head_digit (n : Nat) :
    ∀ b ∈ natDec n, 48 ≤ b ∧ b ≤ 57 := by
  intro b hb
  have := natDec_all_digits n
  rw [List.all_eq_true] at this
  have := this b hb
  unfold isDigit at this
  simp at this
  omega

theorem parseInt_intDec (n : Int) : parseInt (intDec n) = some n := by
  unfold intDec
  split
  · rename_i hneg
    unfold parseInt
    simp [parseNat_natDec, abs_of_neg (by assumption : n < 0)]
  · rename_i hpos
    have hhead : ∀ l, natDec n.toNat = l → parseInt l = (parseNat l).map (fun m => (m : Int)) := by
      intro l hl
      rcases l with _ | ⟨b, rest⟩
      · rfl
      · have hb : 48 ≤ b := by
          have := natDec_head_digit n.toNat b (by rw [hl]; exact List.mem_cons_self b rest)
          omega
        unfold parseInt
        have : b ≠ 45 := by omega
        split
        · rename_i heq
          injection heq with h1 h2
          omega
        · rfl
    rw [hhead (natDec n.toNat) rfl, parseNat_natDec]
    simp
    omega

/-! ## RESP replies and the encoder (`app/protocol.py`)

`encode` is a `singledispatch` generator over the closed union
`Encodeable = RedisError | Primitive | Sequence[Primitive] | NullArray`
with `Primitive = bytes | NullString | int | SimpleString`.  The lazy
generator of byte chunks is modelled as the concatenated byte string. -/

/-- A primitive encodeable value: `bytes`, `NullString`, `int`, `SimpleString`. -/
inductive Primitive
  | bulk (b : Bytes)
  | nullBulk
  | int (n : Int)
  | simple (s : Bytes)
deriving DecidableEq

/-- A full reply: a primitive, a `RedisError` (carrying the bytes of its
message), a sequence of primitives, or a `NullArray`. -/
inductive Reply
  | prim (p : Primitive)
  | err (m : Bytes)
  | array (xs : List Primitive)
  | nullArray
deriving DecidableEq

/-- Concatenation of a list of byte strings (the flattening of the chunks a
Python generator yields). -/
def concatAll : List Bytes → Bytes
  | [] => []
  | x :: xs => x ++ concatAll xs

/-- `encode` on a primitive, from `app/protocol.py`:
bulk `$<len>\r\n<b>\r\n`, null bulk `$-1\r\n`, integer `:<n>\r\n`,
simple string `+<s>\r\n`. -/
def encodePrim : Primitive → Bytes
  | .bulk b => 36 :: (natDec b.length ++ CRLF ++ b ++ CRLF)
  | .nullBulk => [36, 45, 49, 13, 10]
  | .int n => 58 :: (intDec n ++ CRLF)
  | .simple s => 43 :: (s ++ CRLF)

/-- `encode` on a full reply, from `app/protocol.py`: error `-ERR<m>\r\n`,
array `*<N>\r\n` followed by each element, null array `*-1\r\n`. -/
def encode : Reply → Bytes
  | .prim p => encodePrim p
  | .err m => 45 :: (69 :: 82 :: 82 :: (m ++ CRLF))
  | .array xs => 42 :: (natDec xs.length ++ CRLF ++ concatAll (xs.map encodePrim))
  | .nullArray => [42, 45, 49, 13, 10]

/-! ## The reply decoder

The repository has no decoder for replies (`read_command` parses only
inbound command arrays), so the decoder is taken from the specification. -/

/-- Modelled from the spec: read one `\r\n`-terminated line off the front of
a byte string (§4.1 framing); the repository itself has no general reply
reader.  Returns the line and the unconsumed tail. -/
def readLine : Bytes → Option (Bytes × Bytes)
  | [] => none
  | b :: rest =>
    if b = 13 then
      match rest with
      | 10 :: rest2 => some ([], rest2)
      | _ => none
    else
      match readLine rest with
      | some (l, r) => some (b :: l, r)
      | none => none

/-- Modelled from the spec: decoder for the four primitive reply kinds of the
§4.1 wire table (`+`, `:`, `$`, `$-1`); absent from the source, which only
ever encodes replies.  Returns the value and the unconsumed tail. -/
def decodePrim (bs : Bytes) : Option (Primitive × Bytes) :=
  match bs with
  | [] => none
  | b :: rest =>
    if b = 43 then
      match readLine rest with
      | some (l, r) => some (.simple l, r)
      | none => none
    else if b = 58 then
      match readLine rest with
      | some (l, r) =>
        match parseInt l with
        | some n => some (.int n, r)
        | none => none
      | none => none
    else if b = 36 then
      match readLine rest with
      | some (l, r) =>
        if l = [45, 49] then some (.nullBulk, r)
        else
          match parseNat l with
          | some n =>
            match r.drop n with
            | 13 :: 10 :: rest3 =>
              if (r.take n).length = n then some (.bulk (r.take n), rest3) else none
            | _ => none
          | none => none
      | none => none
    else none

/-- Modelled from the spec: decode `n` consecutive primitives (the body of an
array reply). -/
def decodePrims : Nat → Bytes → Option (List Primitive × Bytes)
  | 0, bs => some ([], bs)
  | n + 1, bs =>
    match decodePrim bs with
    | some (p, r) =>
      match decodePrims n r with
      | some (ps, r2) => some (p :: ps, r2)
      | none => none
    | none => none

/-- Modelled from the spec: decoder for a full reply per the §4.1 wire table
(`-ERR<m>`, `*<N>`, `*-1`, or a primitive); absent from the source. -/
def decode (bs : Bytes) : Option (Reply × Bytes) :=
  match bs with
  | [] => none
  | b :: rest =>
    if b = 45 then
      match readLine rest with
      | some (l, r) =>
        match l with
        | 69 :: 82 :: 82 :: m => some (.err m, r)
        | _ => none
      | none => none
    else if b = 42 then
      match readLine rest with
      | some (l, r) =>
        if l = [45, 49] then some (.nullArray, r)
        else
          match parseNat l with
          | some n =>
            match decodePrims n r with
            | some (xs, r2) => some (.array xs, r2)
            | none => none
          | none => none
      | none => none
    else
      match decodePrim bs with
      | some (p, r) => some (.prim p, r)
      | none => none

/-- Well-formedness of a primitive as the server can emit it: a
`SimpleString` contains no CR or LF (asserted in its constructor in
`app/protocol.py`). -/
def primWF : Primitive → Prop
  | .simple s => 13 ∉ s ∧ 10 ∉ s
  | _ => True

instance (p : Primitive) : Decidable (primWF p) := by
  unfold primWF
  cases p <;> infer_instance

/-- Well-formedness of a reply as the server can emit it: simple strings and
error messages contain no CR or LF. -/
def Reply.wf : Reply → Prop
  | .prim p => primWF p
  | .err m => 13 ∉ m ∧ 10 ∉ m
  | .array xs => ∀ p ∈ xs, primWF p
  | .nullArray => True

instance (r : Reply) : Decidable (r.wf) := by
  unfold Reply.wf
  cases r <;> infer_instance

/-! ## Round-trip lemmas for the codec -/

theorem readLine_append (l rest : Bytes) (h13 : 13 ∉ l) (h10 : 10 ∉ l) :
    readLine (l ++ 13 :: 10 :: rest) = some (l, rest) := by
  induction l with
  | nil => simp [readLine]
  | cons a l ih =>
    have ha : a ≠ 13 := by
      intro h
      exact h13 (h ▸ List.mem_cons_self a l)
    have h13' : 13 ∉ l := fun h => h13 (List.mem_cons_of_mem a h)
    have h10' : 10 ∉ l := fun h => h10 (List.mem_cons_of_mem a h)
    simp only [List.cons_append, readLine, ha, if_false, List.append_eq,
      ih h13' h10']

theorem natDec_no_cr (n : Nat) : 13 ∉ natDec n := by
  intro h
  have := natDec_head_digit n 13 h
  omega

theorem natDec_no_lf (n : Nat) : 10 ∉ natDec n := by
  intro h
  have := natDec_head_digit n 10 h
  omega

theorem intDec_no_cr (n : Int) : 13 ∉ intDec n := by
  unfold intDec
  split
  · intro h
    rcases List.mem_cons.mp h with h1 | h2
    · omega
    · exact natDec_no_cr _ h2
  · exact natDec_no_cr _

theorem intDec_no_lf (n : Int) : 10 ∉ intDec n := by
  unfold intDec
  split
  · intro h
    rcases List.mem_cons.mp h with h1 | h2
    · omega
    · exact natDec_no_lf _ h2
  · exact natDec_no_lf _

theorem natDec_ne_neg1 (n : Nat) : natDec n ≠ [45, 49] := by
  intro h
  have : 45 ∈ natDec n := by
    rw [h]
    exact List.mem_cons_self 45 [49]
  have := natDec_head_digit n 45 this
  omega

theorem decodePrim_encodePrim (p : Primitive) (rest : Bytes) (hwf : primWF p) :
    decodePrim (encodePrim p ++ rest) = some (p, rest) := by
  cases p with
  | simple s =>
    obtain ⟨h13, h10⟩ := hwf
    have hr := readLine_append s rest h13 h10
    simp only [encodePrim, CRLF, List.cons_append, List.append_assoc, List.cons_append,
      List.nil_append]
    simp [decodePrim, hr]
  | int n =>
    simp only [encodePrim, CRLF, List.cons_append, List.append_assoc, List.cons_append,
      List.nil_append]
    simp only [decodePrim]
    norm_num
    rw [readLine_append (intDec n) rest (intDec_no_cr n) (intDec_no_lf n)]
    simp [parseInt_intDec]
  | nullBulk =>
    simp [decodePrim, encodePrim, readLine]
  | bulk b =>
    simp only [encodePrim, CRLF, List.cons_append, List.append_assoc, List.cons_append,
      List.nil_append]
    simp only [decodePrim]
    norm_num
    rw [readLine_append (natDec b.length) _ (natDec_no_cr _) (natDec_no_lf _)]
    simp only [natDec_ne_neg1 b.length, if_false, parseNat_natDec]
    have hdrop : List.drop b.length (b ++ 13 :: 10 :: rest) = 13 :: 10 :: rest := by
      rw [List.drop_append_of_le_length (le_refl _)]
      simp
    have htake : List.take b.length (b ++ 13 :: 10 :: rest) = b := by
      rw [List.take_append_of_le_length (le_refl _)]
      simp
    rw [hdrop, htake]
    simp

theorem decodePrims_encode (xs : List Primitive) (rest : Bytes)
    (hwf : ∀ p ∈ xs, primWF p) :
    decodePrims xs.length (concatAll (xs.map encodePrim) ++ rest) = some (xs, rest) := by
  induction xs with
  | nil => simp [decodePrims, concatAll]
  | cons p ps ih =>
    have hp : primWF p := hwf p (List.mem_cons_self p ps)
    have hps : ∀ q ∈ ps, primWF q := fun q hq => hwf q (List.mem_cons_of_mem p hq)
    simp only [List.map_cons, concatAll, List.length_cons, List.append_assoc]
    simp only [decodePrims, decodePrim_encodePrim p _ hp, ih hps]

theorem decode_encode_append (r : Reply) (rest : Bytes) (hwf : r.wf) :
    decode (encode r ++ rest) = some (r, rest) := by
  cases r with
  | err m =>
    obtain ⟨h13, h10⟩ := hwf
    have h13' : 13 ∉ (69 :: 82 :: 82 :: m : Bytes) := by simp [h13]
    have h10' : 10 ∉ (69 :: 82 :: 82 :: m : Bytes) := by simp [h10]
    have hr := readLine_append (69 :: 82 :: 82 :: m) rest h13' h10'
    simp only [List.cons_append] at hr
    simp only [encode, CRLF, List.cons_append, List.append_assoc, List.nil_append]
    simp [decode, hr]
  | nullArray =>
    simp [decode, encode, readLine]
  | array xs =>
    simp only [encode, CRLF, List.cons_append, List.append_assoc, List.nil_append]
    simp only [decode]
    norm_num
    rw [readLine_append (natDec xs.length) _ (natDec_no_cr _) (natDec_no_lf _)]
    simp only [natDec_ne_neg1 xs.length, if_false, parseNat_natDec]
    rw [decodePrims_encode xs rest hwf]
  | prim p =>
    have hhead : ∀ b t, encodePrim p = b :: t → b ≠ 45 ∧ b ≠ 42 := by
      intro b t h
      cases p <;> simp [encodePrim] at h <;> omega
    rcases hp : encodePrim p with _ | ⟨b, t⟩
    · cases p <;> simp [encodePrim] at hp
    · obtain ⟨hb45, hb42⟩ := hhead b t hp
      simp only [encode, hp, List.cons_append]
      simp only [decode, hb45, hb42, if_false]
      rw [← List.cons_append, ← hp, decodePrim_encodePrim p rest hwf]

/-- C3: for every reply kind the server can emit (simple string, error,
integer, bulk string, null bulk, array, null array), decoding the encoded
wire bytes yields the original reply, consuming the input exactly:
`decode (encode reply) = some (reply, [])`.  The well-formedness hypothesis
carries the source's own constraint that simple strings (and the emitted
error messages) contain no CR or LF. -/
theorem decode_encode_roundtrip (r : Reply) (hwf : r.wf) :
    decode (encode r) = some (r, []) := by
  have h := decode_encode_append r [] hwf
  simpa using h

/-- Witness for `decode_encode_roundtrip`: one concrete reply of each of the
seven kinds round-trips. -/
theorem decode_encode_roundtrip_witness :
    decode (encode (Reply.prim (.simple [79, 75]))) = some (Reply.prim (.simple [79, 75]), []) ∧
    decode (encode (Reply.err [98, 97, 100])) = some (Reply.err [98, 97, 100], []) ∧
    decode (encode (Reply.prim (.int (-42)))) = some (Reply.prim (.int (-42)), []) ∧
    decode (encode (Reply.prim (.bulk [1, 2, 13, 10]))) = some (Reply.prim (.bulk [1, 2, 13, 10]), []) ∧
    decode (encode (Reply.prim .nullBulk)) = some (Reply.prim .nullBulk, []) ∧
    decode (encode (Reply.array [.bulk [97], .int 7, .nullBulk, .simple [104, 105]])) =
      some (Reply.array [.bulk [97], .int 7, .nullBulk, .simple [104, 105]], []) ∧
    decode (encode Reply.nullArray) = some (Reply.nullArray, []) :=
  ⟨decode_encode_roundtrip _ (by decide), decode_encode_roundtrip _ (by decide),
   decode_encode_roundtrip _ (by decide), decode_encode_roundtrip _ (by decide),
   decode_encode_roundtrip _ (by decide), decode_encode_roundtrip _ (by decide),
   decode_encode_roundtrip _ (by decide)⟩

/-! ## Streams (`app/storage/stream.py`)

`StreamId` is a frozen ordered dataclass `(time, sequence)`; Python's
generated dataclass order is lexicographic.  A `Stream` holds a list of
entries; the `asyncio.Event` notification handle carries no data and is
irrelevant to the claims proved here, so it is not part of the state. -/

/-- A stream id `(time, sequence)`. -/
structure StreamId where
  time : Int
  sequence : Int
deriving DecidableEq

/-- Python's `<` on the ordered dataclass: lexicographic on
`(time, sequence)`. -/
def idLt (a b : StreamId) : Prop :=
  a.time < b.time ∨ (a.time = b.time ∧ a.sequence < b.sequence)

/-- Python's `<=` on the ordered dataclass: lexicographic on
`(time, sequence)`. -/
def idLe (a b : StreamId) : Prop :=
  a.time < b.time ∨ (a.time = b.time ∧ a.sequence ≤ b.sequence)

instance (a b : StreamId) : Decidable (idLt a b) := by
  unfold idLt
  infer_instance

instance (a b : StreamId) : Decidable (idLe a b) := by
  unfold idLe
  infer_instance

theorem idLt_trans {a b c : StreamId} (h1 : idLt a b) (h2 : idLt b c) :
    idLt a c := by
  unfold idLt at *
  omega

theorem idLe_lt_trans {a b c : StreamId} (h1 : idLe a b) (h2 : idLt b c) :
    idLt a c := by
  unfold idLe idLt at *
  omega

theorem idLt_le {a b : StreamId} (h : idLt a b) : idLe a b := by
  unfold idLe idLt at *
  omega

theorem not_idLe {a b : StreamId} (h : ¬ idLe a b) : idLt b a := by
  unfold idLe idLt at *
  omega

/-- A stream entry: id plus flat field-value byte-string list. -/
structure StreamEntry where
  id : StreamId
  kv : List Bytes
deriving DecidableEq

/-- The entry list `self.l` of a `Stream`. -/
abbrev StreamV := List StreamEntry

/-- `Stream.last_id`: id of the last entry, `(0, 0)` when empty. -/
def lastId (l : StreamV) : StreamId :=
  match l.getLast? with
  | none => ⟨0, 0⟩
  | some e => e.id

/-- `Stream._generate_sequence_number` with proposed time `t` (already
converted by `int(a)` in the source): if the last id's time (or `(0,0)` when
empty) is at least `t`, bump its sequence; otherwise start `(t, 0)`. -/
def generateSequenceNumber (l : StreamV) (t : Int) : StreamId :=
  let old := lastId l
  if old.time ≥ t then ⟨old.time, old.sequence + 1⟩ else ⟨t, 0⟩

/-- The two `RedisError` messages of `Stream._validate_full_id`. -/
def errIdZero : String := "The ID specified in XADD must be greater than 0-0"

/-- The second `RedisError` message of `Stream._validate_full_id`. -/
def errIdSmall : String :=
  "The ID specified in XADD is equal or smaller than the target stream top item"

/-- `Stream._validate_full_id` on an explicit `(t, s)` (the source's
`int(a), int(b)`): reject ids at or below `(0,0)`, then ids at or below the
current last entry's id; otherwise accept. -/
def validateFullId (l : StreamV) (t s : Int) : Except String StreamId :=
  let new : StreamId := ⟨t, s⟩
  if idLe new ⟨0, 0⟩ then .error errIdZero
  else
    match l.getLast? with
    | some e => if idLe new e.id then .error errIdSmall else .ok new
    | none => .ok new

/-- The parsed shape of `id_or_template` in `Stream._generate_id`:
`*`, `<ms>-*`, or a full `<ms>-<seq>` (the byte-level `split(b"-", 1)` and
`int` conversions happen before this point in the source). -/
inductive IdArg
  | star
  | timeStar (t : Int)
  | full (t s : Int)

/-- `Stream._generate_id`: `*` proposes the current wall-clock milliseconds
`now`; `<ms>-*` proposes `ms`; a full id is validated. -/
def generateId (l : StreamV) (now : Int) : IdArg → Except String StreamId
  | .star => .ok (generateSequenceNumber l now)
  | .timeStar t => .ok (generateSequenceNumber l t)
  | .full t s => validateFullId l t s

/-- `bytes(StreamId)`: the `"<time>-<sequence>"` byte encoding. -/
def idBytes (i : StreamId) : Bytes :=
  intDec i.time ++ 45 :: intDec i.sequence

/-- `Stream.xadd`: generate or validate the id, append the entry, return
the encoded id.  A raised `RedisError` leaves the entry list unchanged
(the exception fires before the append). -/
def xaddStream (l : StreamV) (now : Int) (arg : IdArg) (kv : List Bytes) :
    StreamV × Except String Bytes :=
  match generateId l now arg with
  | .error e => (l, .error e)
  | .ok gid => (l ++ [⟨gid, kv⟩], .ok (idBytes gid))

/-- One XADD call: its wall-clock ms reading, its id argument, its
field-value list. -/
structure XOp where
  now : Int
  arg : IdArg
  kv : List Bytes

/-- Apply a sequence of XADD calls to a stream; failed calls leave the
stream unchanged. -/
def applyXadds (l : StreamV) : List XOp → StreamV
  | [] => l
  | op :: ops => applyXadds (xaddStream l op.now op.arg op.kv).1 ops

/-- C4: for every stream and every XADD whose id is `*` (proposing the
wall-clock ms `now`) or `<ms>-*` (proposing `t`): the empty stream's last id
is `(0,0)`; when `last.time ≥ t` the generated id is
`(last.time, last.sequence + 1)`; otherwise it is `(t, 0)`. -/
theorem xadd_generated_sequence (l : StreamV) (t now : Int) :
    (l = [] → lastId l = ⟨0, 0⟩) ∧
    ((lastId l).time ≥ t →
      generateSequenceNumber l t = ⟨(lastId l).time, (lastId l).sequence + 1⟩) ∧
    ((lastId l).time < t → generateSequenceNumber l t = ⟨t, 0⟩) ∧
    generateId l now .star = .ok (generateSequenceNumber l now) ∧
    generateId l now (.timeStar t) = .ok (generateSequenceNumber l t) := by
  refine ⟨?_, ?_, ?_, rfl, rfl⟩
  · intro h
    subst h
    rfl
  · intro h
    unfold generateSequenceNumber
    simp [h]
  · intro h
    unfold generateSequenceNumber
    simp only []
    rw [if_neg (by omega)]

/-- Witness for `xadd_generated_sequence` at concrete streams. -/
theorem xadd_generated_sequence_witness :
    lastId ([] : StreamV) = ⟨0, 0⟩ ∧
    generateSequenceNumber [⟨⟨5, 2⟩, []⟩] 5 = ⟨5, 3⟩ ∧
    generateSequenceNumber [⟨⟨5, 2⟩, []⟩] 7 = ⟨7, 0⟩ :=
  ⟨(xadd_generated_sequence [] 0 0).1 rfl,
   (xadd_generated_sequence [⟨⟨5, 2⟩, []⟩] 5 0).2.1 (by decide),
   (xadd_generated_sequence [⟨⟨5, 2⟩, []⟩] 7 0).2.2.1 (by decide)⟩

/-- C5 (amended): XADD with a fully specified id `(t, s)` fails with the
"greater than 0-0" error exactly when `(t,s) ≤ (0,0)`; it fails with the
"equal or smaller than the target stream top item" error exactly when
`(t,s) > (0,0)`, the stream is non-empty, and `(t,s)` is at most the last
id (the first check takes precedence); otherwise it emits `(t, s)`; and on
any failure the entry list is unchanged. -/
theorem xadd_full_id_validation (l : StreamV) (t s now : Int) (kv : List Bytes) :
    (validateFullId l t s = .error errIdZero ↔ idLe ⟨t, s⟩ ⟨0, 0⟩) ∧
    (validateFullId l t s = .error errIdSmall ↔
      (¬ idLe ⟨t, s⟩ ⟨0, 0⟩ ∧ ∃ e, l.getLast? = some e ∧ idLe ⟨t, s⟩ e.id)) ∧
    ((¬ idLe ⟨t, s⟩ ⟨0, 0⟩ ∧ ∀ e, l.getLast? = some e → ¬ idLe ⟨t, s⟩ e.id) →
      validateFullId l t s = .ok ⟨t, s⟩) ∧
    (∀ m, (xaddStream l now (.full t s) kv).2 = .error m →
      (xaddStream l now (.full t s) kv).1 = l) := by
  have hne : errIdZero ≠ errIdSmall := by decide
  refine ⟨?_, ?_, ?_, ?_⟩
  · unfold validateFullId
    by_cases h0 : idLe ⟨t, s⟩ ⟨0, 0⟩
    · simp [h0]
    · simp only [h0, if_false]
      rcases hg : l.getLast? with _ | e
      · simp [h0]
      · by_cases hle : idLe ⟨t, s⟩ e.id
        · simp [hle, h0, Ne.symm hne]
        · simp [hle, h0]
  · unfold validateFullId
    by_cases h0 : idLe ⟨t, s⟩ ⟨0, 0⟩
    · simp [h0, hne]
    · simp only [h0, if_false]
      rcases hg : l.getLast? with _ | e
      · simp [h0]
      · by_cases hle : idLe ⟨t, s⟩ e.id
        · simp [hle, h0]
        · simp [hle, h0]
  · intro ⟨h0, hl⟩
    unfold validateFullId
    simp only [h0, if_false]
    rcases hg : l.getLast? with _ | e
    · rfl
    · simp [hl e hg]
  · intro m
    unfold xaddStream generateId
    rcases hv : validateFullId l t s with e | gid <;> simp [hv]

/-- Witness for `xadd_full_id_validation`: the accept branch and the
unchanged-on-failure branch at concrete inputs. -/
theorem xadd_full_id_validation_witness :
    validateFullId [] 3 0 = .ok ⟨3, 0⟩ ∧
    (xaddStream [⟨⟨1, 0⟩, []⟩] 0 (.full 1 0) []).1 = [⟨⟨1, 0⟩, []⟩] :=
  ⟨(xadd_full_id_validation [] 3 0 0 []).2.2.1
     ⟨by decide, fun e h => Option.noConfusion h⟩,
   (xadd_full_id_validation [⟨⟨1, 0⟩, []⟩] 1 0 0 []).2.2.2 errIdSmall rfl⟩

/-- C5 counterexample: on the non-empty stream with last id `(1,0)`, the
full id `(0,0)` makes "stream non-empty and `(t,s) ≤` last id" true, yet
the operation does not fail with the "equal or smaller" error — the
"greater than 0-0" check fires first.  This refutes the claim's second
"exactly when". -/
theorem xadd_full_id_validation_cex :
    ([⟨⟨1, 0⟩, []⟩] : StreamV) ≠ [] ∧
    idLe ⟨0, 0⟩ (lastId [⟨⟨1, 0⟩, []⟩]) ∧
    validateFullId [⟨⟨1, 0⟩, []⟩] 0 0 ≠ .error errIdSmall ∧
    validateFullId [⟨⟨1, 0⟩, []⟩] 0 0 = .error errIdZero := by
  refine ⟨by decide, by decide, ?_, ?_⟩
  · intro h
    unfold validateFullId at h
    rw [if_pos (by decide)] at h
    have : errIdZero = errIdSmall := Except.error.inj h
    exact absurd this (by decide)
  · unfold validateFullId
    rw [if_pos (by decide)]

/-! ## Stream id monotonicity -/

/-- The inductive invariant of a stream built by `xadd`: entry ids are
pairwise strictly increasing, strictly above `(0,0)`, and bounded by the
last id, which itself is at least `(0,0)`. -/
def StreamInv (l : StreamV) : Prop :=
  List.Pairwise (fun a b => idLt a.id b.id) l ∧
  (∀ e ∈ l, idLt ⟨0, 0⟩ e.id) ∧
  (∀ e ∈ l, idLe e.id (lastId l)) ∧
  idLe ⟨0, 0⟩ (lastId l)

theorem streamInv_nil : StreamInv [] := by
  refine ⟨List.Pairwise.nil, by simp, by simp, ?_⟩
  unfold lastId
  simp [idLe]

theorem lastId_concat (l : StreamV) (e : StreamEntry) :
    lastId (l ++ [e]) = e.id := by
  unfold lastId
  rw [List.getLast?_concat]

theorem lastId_of_getLast? {l : StreamV} {e : StreamEntry}
    (h : l.getLast? = some e) : lastId l = e.id := by
  unfold lastId
  rw [h]

theorem generateId_ok_gt {l : StreamV} {now : Int} {arg : IdArg} {gid : StreamId}
    (hinv : StreamInv l) (h : generateId l now arg = .ok gid) :
    idLt (lastId l) gid ∧ idLt ⟨0, 0⟩ gid := by
  obtain ⟨hpw, hpos, hbound, hzero⟩ := hinv
  have hgsn : ∀ t, idLt (lastId l) (generateSequenceNumber l t) ∧
      idLt ⟨0, 0⟩ (generateSequenceNumber l t) := by
    intro t
    unfold generateSequenceNumber
    by_cases hc : (lastId l).time ≥ t
    · rw [if_pos hc]
      have h1 : idLt (lastId l) ⟨(lastId l).time, (lastId l).sequence + 1⟩ := by
        unfold idLt
        dsimp only
        omega
      exact ⟨h1, idLe_lt_trans hzero h1⟩
    · rw [if_neg hc]
      have h1 : idLt (lastId l) ⟨t, 0⟩ := by
        unfold idLt
        dsimp only
        omega
      refine ⟨h1, ?_⟩
      unfold idLt
      unfold idLe at hzero
      dsimp only at hzero ⊢
      omega
  cases arg with
  | star =>
    have := hgsn now
    injection h with h2
    rw [← h2]
    exact this
  | timeStar t =>
    have := hgsn t
    injection h with h2
    rw [← h2]
    exact this
  | full t s =>
    unfold generateId validateFullId at h
    dsimp only at h
    by_cases h0 : idLe ⟨t, s⟩ ⟨0, 0⟩
    · rw [if_pos h0] at h
      exact absurd h (by simp)
    · rw [if_neg h0] at h
      have hzlt : idLt ⟨0, 0⟩ ⟨t, s⟩ := not_idLe h0
      rcases hg : l.getLast? with _ | e
      · rw [hg] at h
        injection h with h2
        subst h2
        have hl0 : lastId l = ⟨0, 0⟩ := by
          unfold lastId
          rw [hg]
        rw [hl0]
        exact ⟨hzlt, hzlt⟩
      · rw [hg] at h
        dsimp only at h
        by_cases hle : idLe ⟨t, s⟩ e.id
        · rw [if_pos hle] at h
          exact absurd h (by simp)
        · rw [if_neg hle] at h
          injection h with h2
          subst h2
          rw [lastId_of_getLast? hg]
          exact ⟨not_idLe hle, hzlt⟩

theorem streamInv_append {l : StreamV} {gid : StreamId} {kv : List Bytes}
    (hinv : StreamInv l) (hgt : idLt (lastId l) gid) (hz : idLt ⟨0, 0⟩ gid) :
    StreamInv (l ++ [⟨gid, kv⟩]) := by
  obtain ⟨hpw, hpos, hbound, hzero⟩ := hinv
  refine ⟨?_, ?_, ?_, ?_⟩
  · rw [List.pairwise_append]
    refine ⟨hpw, List.pairwise_singleton _ _, ?_⟩
    intro a ha b hb
    rcases List.mem_singleton.mp hb with rfl
    exact idLe_lt_trans (hbound a ha) hgt
  · intro e he
    rcases List.mem_append.mp he with h1 | h2
    · exact hpos e h1
    · rcases List.mem_singleton.mp h2 with rfl
      exact hz
  · intro e he
    rw [lastId_concat]
    rcases List.mem_append.mp he with h1 | h2
    · exact idLt_le (idLe_lt_trans (hbound e h1) hgt)
    · rcases List.mem_singleton.mp h2 with rfl
      unfold idLe
      omega
  · rw [lastId_concat]
    exact idLt_le hz

theorem streamInv_xadd (l : StreamV) (now : Int) (arg : IdArg) (kv : List Bytes)
    (hinv : StreamInv l) : StreamInv (xaddStream l now arg kv).1 := by
  unfold xaddStream
  rcases hg : generateId l now arg with e | gid
  · exact hinv
  · exact streamInv_append hinv (generateId_ok_gt hinv hg).1 (generateId_ok_gt hinv hg).2

theorem streamInv_applyXadds (ops : List XOp) :
    ∀ l, StreamInv l → StreamInv (applyXadds l ops) := by
  induction ops with
  | nil => exact fun l h => h
  | cons op ops ih =>
    intro l hl
    exact ih _ (streamInv_xadd l op.now op.arg op.kv hl)

/-- C6: over every sequence of XADD calls on one stream (failed calls leave
the stream unchanged, so the appended entries are exactly the successful
ones), the appended ids are strictly increasing in `(time, sequence)`
lexicographic order and each is strictly greater than `(0, 0)`. -/
theorem xadd_ids_monotonic (ops : List XOp) :
    List.Pairwise (fun a b => idLt a.id b.id) (applyXadds [] ops) ∧
    ∀ e ∈ applyXadds [] ops, idLt ⟨0, 0⟩ e.id := by
  have h := streamInv_applyXadds ops [] streamInv_nil
  exact ⟨h.1, h.2.1⟩

/-! ## List values (`app/storage/list_.py`) -/

/-- The element list `self.l` of a `List` value. -/
abbrev RList := List Bytes

/-- `List.rpush`: `self.l.extend(xs)`; returns the new length. -/
def listRpush (l : RList) (xs : List Bytes) : RList × Nat :=
  (l ++ xs, (l ++ xs).length)

/-- `List.lpush`: `self.l[:0] = reversed(xs)`; returns the new length. -/
def listLpush (l : RList) (xs : List Bytes) : RList × Nat :=
  (xs.reverse ++ l, (xs.reverse ++ l).length)

/-- `List.lpop`: `self.l.pop(0)`; `none` models the `NullString` returned
on `IndexError`. -/
def listLpop (l : RList) : Option Bytes × RList :=
  match l with
  | [] => (none, [])
  | x :: xs => (some x, xs)

/-- Python slice `l[:n]` for arbitrary integer `n`: a negative `n` counts
from the end (clamped at zero elements). -/
def pySliceTo (l : RList) (n : Int) : RList :=
  if 0 ≤ n then l.take n.toNat else l.take (l.length - n.natAbs)

/-- Python `del l[:n]`: what remains after deleting the slice `l[:n]`. -/
def pyDelTo (l : RList) (n : Int) : RList :=
  if 0 ≤ n then l.drop n.toNat else l.drop (l.length - n.natAbs)

/-- `List.lpop_many(n)`: `NullString` (modelled `none`) on an empty list;
otherwise return `self.l[:n]` and delete it from the list. -/
def listLpopMany (l : RList) (n : Int) : Option (List Bytes) × RList :=
  if l = [] then (none, l) else (some (pySliceTo l n), pyDelTo l n)

/-! ## The keyspace (`app/storage/__init__.py`) -/

/-- A stored value: the closed union `String | List | Stream`.  The
`String` expiration is an absolute clock instant (the claims settled here
do not depend on it; the source's float instant is modelled as an opaque
optional integer). -/
inductive Value
  | str (v : Bytes) (expiration : Option Int)
  | list (l : RList)
  | stream (s : StreamV)
deriving DecidableEq

/-- Association-list lookup, modelling Python `dict.get`. -/
def alookup {α : Type} : List (Bytes × α) → Bytes → Option α
  | [], _ => none
  | (k2, v) :: rest, k => if k2 = k then some v else alookup rest k

/-- Association-list write, modelling Python `dict.__setitem__` /
`setdefault` insertion (keys unique; insertion order immaterial to the
claims). -/
def aset {α : Type} : List (Bytes × α) → Bytes → α → List (Bytes × α)
  | [], k, v => [(k, v)]
  | (k2, v2) :: rest, k, v =>
    if k2 = k then (k, v) :: rest else (k2, v2) :: aset rest k v

/-- The `Storage.kv` mapping. -/
abbrev Keyspace := List (Bytes × Value)

theorem alookup_aset {α : Type} (m : List (Bytes × α)) (k : Bytes) (v : α) :
    alookup (aset m k v) k = some v := by
  induction m with
  | nil => simp [aset, alookup]
  | cons p rest ih =>
    obtain ⟨k2, v2⟩ := p
    by_cases h : k2 = k
    · simp [aset, alookup, h]
    · simp [aset, alookup, h, ih]

theorem aset_self {α : Type} (m : List (Bytes × α)) (k : Bytes) (v : α)
    (h : alookup m k = some v) : aset m k v = m := by
  induction m with
  | nil => simp [alookup] at h
  | cons p rest ih =>
    obtain ⟨k2, v2⟩ := p
    by_cases hk : k2 = k
    · subst hk
      simp [alookup] at h
      simp [aset, h]
    · simp [alookup, hk] at h
      simp [aset, hk, ih h]

/-- Python error values crossing the model: a `RedisError` with its message,
or a `KeyError` from a `dict[k]` lookup of a missing key. -/
inductive PyErr
  | redis (msg : String)
  | keyError
deriving DecidableEq

deriving instance DecidableEq for Except

/-- `String.type` / `List.type` / `Stream.type` class attributes:
`"string"` / `"list"` / `"stream"` as bytes. -/
def valueType : Value → Bytes
  | .str _ _ => [115, 116, 114, 105, 110, 103]
  | .list _ => [108, 105, 115, 116]
  | .stream _ => [115, 116, 114, 101, 97, 109]

/-- The bytes of `"none"`. -/
def bNone : Bytes := [110, 111, 110, 101]

/-- `Storage.type`: `SimpleString("none")` for a missing key, else the
stored value's `type` attribute. -/
def storageType (kv : Keyspace) (k : Bytes) : Bytes :=
  match alookup kv k with
  | none => bNone
  | some v => valueType v

/-- Modelled from the spec: the connection handler's `TYPE k` dispatch case
(§6, `TYPE k → +none|+string|+list|+stream`).  The handler in
`src/app/main.py` is a stale earlier stage whose match statement lacks the
TYPE/XADD/XRANGE/XREAD cases that `Storage` implements; per the spec the
reply is `Storage.type(k)` encoded as a simple string. -/
def typeCommandReply (kv : Keyspace) (k : Bytes) : Reply :=
  .prim (.simple (storageType kv k))

/-- C1: for every TYPE command for any key `k`, the reply is the simple
string `"none"` when `k` is absent, and otherwise the stored value's kind:
`"string"`, `"list"`, or `"stream"`. -/
theorem type_reply_matches_kind (kv : Keyspace) (k : Bytes) :
    (alookup kv k = none →
      typeCommandReply kv k = .prim (.simple bNone)) ∧
    (∀ v e, alookup kv k = some (.str v e) →
      typeCommandReply kv k = .prim (.simple [115, 116, 114, 105, 110, 103])) ∧
    (∀ l, alookup kv k = some (.list l) →
      typeCommandReply kv k = .prim (.simple [108, 105, 115, 116])) ∧
    (∀ s, alookup kv k = some (.stream s) →
      typeCommandReply kv k = .prim (.simple [115, 116, 114, 101, 97, 109])) := by
  unfold typeCommandReply storageType
  refine ⟨?_, ?_, ?_, ?_⟩
  · intro h
    rw [h]
  · intro v e h
    rw [h]
    rfl
  · intro l h
    rw [h]
    rfl
  · intro s h
    rw [h]
    rfl

/-- Witness for `type_reply_matches_kind` on a concrete keyspace holding
one value of each kind. -/
theorem type_reply_matches_kind_witness :
    typeCommandReply [([107], Value.list [[97]])] [106] = .prim (.simple bNone) ∧
    typeCommandReply [([107], Value.str [120] none)] [107] =
      .prim (.simple [115, 116, 114, 105, 110, 103]) ∧
    typeCommandReply [([107], Value.list [[97]])] [107] =
      .prim (.simple [108, 105, 115, 116]) ∧
    typeCommandReply [([107], Value.stream [⟨⟨1, 0⟩, []⟩])] [107] =
      .prim (.simple [115, 116, 114, 101, 97, 109]) :=
  ⟨(type_reply_matches_kind [([107], Value.list [[97]])] [106]).1 rfl,
   (type_reply_matches_kind [([107], Value.str [120] none)] [107]).2.1 [120] none rfl,
   (type_reply_matches_kind [([107], Value.list [[97]])] [107]).2.2.1 [[97]] rfl,
   (type_reply_matches_kind [([107], Value.stream [⟨⟨1, 0⟩, []⟩])] [107]).2.2.2
     [⟨⟨1, 0⟩, []⟩] rfl⟩

theorem foldl_cons_eq_reverse_append (xs : List Bytes) :
    ∀ l : RList, xs.foldl (fun acc x => x :: acc) l = xs.reverse ++ l := by
  induction xs with
  | nil => intro l; rfl
  | cons x xs ih =>
    intro l
    simp only [List.foldl_cons, List.reverse_cons, List.append_assoc]
    rw [ih (x :: l)]
    simp

/-- C8: for every list value and non-empty `xs`, `lpush(xs)` prepends the
elements in reverse of the given order — equivalently, pushes each element
left-to-right at the head — and returns the new length; on an empty list,
`LPUSH k a b c` yields head-to-tail order `c, b, a`. -/
theorem lpush_prepends_reversed (l : RList) (xs : List Bytes) (hxs : xs ≠ []) :
    (listLpush l xs).1 = xs.foldl (fun acc x => x :: acc) l ∧
    (listLpush l xs).2 = xs.length + l.length ∧
    (listLpush [] [[97], [98], [99]]).1 = [[99], [98], [97]] := by
  refine ⟨?_, ?_, rfl⟩
  · rw [foldl_cons_eq_reverse_append]
    rfl
  · unfold listLpush
    simp

/-- Witness for `lpush_prepends_reversed` at a concrete list and argument
sequence. -/
theorem lpush_prepends_reversed_witness :
    (listLpush [[100]] [[97], [98]]).1 =
      [[97], [98]].foldl (fun acc x => x :: acc) [[100]] ∧
    (listLpush [[100]] [[97], [98]]).2 = 3 :=
  ⟨(lpush_prepends_reversed [[100]] [[97], [98]] (by simp)).1,
   (lpush_prepends_reversed [[100]] [[97], [98]] (by simp)).2.1⟩

/-- `Storage.lpop_many` (with `n` already through the source's `int(n)`
parse; an unparseable argument raises a `RedisError` before any lookup):
missing key replies `NullString`; a list value delegates to
`List.lpop_many`; any other value raises.  The f-string of the source's
error message is abstracted to a fixed text. -/
def storageLpopMany (kv : Keyspace) (k : Bytes) (n : Int) :
    Keyspace × Except PyErr (Option (List Bytes)) :=
  match alookup kv k with
  | none => (kv, .ok none)
  | some (.list l) =>
    let res := listLpopMany l n
    (aset kv k (.list res.2), .ok res.1)
  | some _ => (kv, .error (.redis "key is not list"))

/-- C9 (amended, `n ≥ 0`): for `LPOP k n` with non-negative `n`: a missing
key or an empty stored list replies null bulk (never an empty array), and a
non-empty stored list replies the array of up to `n` head elements, which
are removed from the stored list. -/
theorem lpop_many_contract (kv : Keyspace) (k : Bytes) (n : Int) (hn : 0 ≤ n) :
    (alookup kv k = none → storageLpopMany kv k n = (kv, .ok none)) ∧
    (alookup kv k = some (.list []) → storageLpopMany kv k n = (kv, .ok none)) ∧
    (∀ l, alookup kv k = some (.list l) → l ≠ [] →
      storageLpopMany kv k n =
        (aset kv k (.list (l.drop n.toNat)), .ok (some (l.take n.toNat)))) := by
  refine ⟨?_, ?_, ?_⟩
  · intro h
    unfold storageLpopMany
    rw [h]
  · intro h
    unfold storageLpopMany
    rw [h]
    dsimp only
    rw [show listLpopMany [] n = (none, []) from rfl]
    rw [aset_self kv k (.list []) h]
  · intro l h hl
    unfold storageLpopMany
    rw [h]
    dsimp only
    unfold listLpopMany pySliceTo pyDelTo
    rw [if_neg hl, if_pos hn, if_pos hn]

/-- Witness for `lpop_many_contract` at a concrete keyspace: missing key,
empty list, and a three-element list popped with `n = 2`. -/
theorem lpop_many_contract_witness :
    storageLpopMany [([107], Value.list [[97], [98], [99]])] [106] 2 =
      ([([107], Value.list [[97], [98], [99]])], .ok none) ∧
    storageLpopMany [([107], Value.list [])] [107] 2 =
      ([([107], Value.list [])], .ok none) ∧
    storageLpopMany [([107], Value.list [[97], [98], [99]])] [107] 2 =
      ([([107], Value.list [[99]])], .ok (some [[97], [98]])) :=
  ⟨(lpop_many_contract [([107], Value.list [[97], [98], [99]])] [106] 2 (by decide)).1 rfl,
   (lpop_many_contract [([107], Value.list [])] [107] 2 (by decide)).2.1 rfl,
   (lpop_many_contract [([107], Value.list [[97], [98], [99]])] [107] 2 (by decide)).2.2
     [[97], [98], [99]] rfl (by simp)⟩

/-- C9 counterexample: `LPOP k -1` on the stored list `[a, b, c]` replies
the two-element array `[a, b]` (Python slice semantics), which is not "an
array of up to `n = -1` head elements" — its length exceeds `n`.  The
claim as stated, quantified over every `LPOP k n`, therefore fails for
negative `n`. -/
theorem lpop_many_negative_cex :
    (storageLpopMany [([107], Value.list [[97], [98], [99]])] [107] (-1)).2 =
      .ok (some [[97], [98]]) ∧
    (storageLpopMany [([107], Value.list [[97], [98], [99]])] [107] (-1)).1 =
      [([107], Value.list [[99]])] ∧
    ¬ ((([[97], [98]] : List Bytes).length : Int) ≤ -1) := by
  refine ⟨rfl, rfl, by decide⟩

/-! ## Blocking dispatcher (`app/storage/__init__.py`) -/

/-- A blocking request as the dispatcher sees it: an identity (standing for
Python object identity, which `list.remove` compares by) and the
boolean-returning `notify` predicate.  The completion side effect of
`BLPopRequest.notify` (`future.set_result(v.lpop())`) lives inside the
request; the dispatcher's control flow depends only on the returned
boolean, which is what the claims below are about. -/
structure BlockReq where
  id : Nat
  pred : Value → Bool

/-- `BLPopRequest.notify`'s acceptance condition: the value matches
`List(empty=False)`. -/
def blpopNotifyPred : Value → Bool
  | .list (_ :: _) => true
  | _ => false

/-- `BlockingDispatcher.notify_key` on one key's queue: walk the queue in
order, and complete and delete the first request whose `notify(v)` returns
true (the source's `for`/`break`/`else: return` with `del l[i]`); later
requests are not consulted.  Returns the new queue and the completed
request, if any. -/
def notifyKey (q : List BlockReq) (v : Value) : List BlockReq × Option BlockReq :=
  match q with
  | [] => ([], none)
  | r :: rest =>
    if r.pred v then (rest, some r)
    else
      let res := notifyKey rest v
      (r :: res.1, res.2)

/-- C7: for every queue of registered waiters and every `notify(k, v)`: the
first waiter whose predicate accepts `v` is completed and removed, all
other waiters remain queued in their original order; if no predicate
accepts `v`, the queue is unchanged and nothing completes. -/
theorem notify_completes_first_matching (v : Value) :
    (∀ (q1 q2 : List BlockReq) (w : BlockReq),
      (∀ r ∈ q1, r.pred v = false) → w.pred v = true →
      notifyKey (q1 ++ w :: q2) v = (q1 ++ q2, some w)) ∧
    (∀ q : List BlockReq, (∀ r ∈ q, r.pred v = false) →
      notifyKey q v = (q, none)) := by
  constructor
  · intro q1
    induction q1 with
    | nil =>
      intro q2 w h1 hw
      simp [notifyKey, hw]
    | cons r q1 ih =>
      intro q2 w h1 hw
      have hr : r.pred v = false := h1 r (List.mem_cons_self r q1)
      have h1' : ∀ x ∈ q1, x.pred v = false :=
        fun x hx => h1 x (List.mem_cons_of_mem r hx)
      simp only [List.cons_append, notifyKey, hr, Bool.false_eq_true, if_false,
        List.append_eq]
      rw [ih q2 w h1' hw]
  · intro q
    induction q with
    | nil => intro h; rfl
    | cons r rest ih =>
      intro h
      have hr : r.pred v = false := h r (List.mem_cons_self r rest)
      simp only [notifyKey, hr, Bool.false_eq_true, if_false]
      rw [ih (fun x hx => h x (List.mem_cons_of_mem r hx))]

/-- Witness for `notify_completes_first_matching`: a concrete queue where
the second waiter is the first to accept, and a queue where nobody
accepts. -/
theorem notify_completes_first_matching_witness :
    notifyKey [⟨1, fun _ => false⟩, ⟨2, blpopNotifyPred⟩, ⟨3, blpopNotifyPred⟩]
        (Value.list [[97]]) =
      ([⟨1, fun _ => false⟩, ⟨3, blpopNotifyPred⟩], some ⟨2, blpopNotifyPred⟩) ∧
    notifyKey [⟨1, blpopNotifyPred⟩] (Value.list []) =
      ([⟨1, blpopNotifyPred⟩], none) :=
  ⟨(notify_completes_first_matching (Value.list [[97]])).1
     [⟨1, fun _ => false⟩] [⟨3, blpopNotifyPred⟩] ⟨2, blpopNotifyPred⟩
     (by
       intro r hr
       rcases List.mem_singleton.mp hr with rfl
       rfl)
     rfl,
   (notify_completes_first_matching (Value.list [])).2 [⟨1, blpopNotifyPred⟩]
     (by
       intro r hr
       rcases List.mem_singleton.mp hr with rfl
       rfl)⟩

/-! ## The `notify_blocked` wrapper and the push operations -/

/-- The per-key waiter queues `BlockingDispatcher.kv` (a `defaultdict`). -/
abbrev Queues := List (Bytes × List BlockReq)

/-- Queue of key `k` (`defaultdict` read: missing keys read as empty). -/
def getQ (qs : Queues) (k : Bytes) : List BlockReq :=
  (alookup qs k).getD []

/-- `BlockingDispatcher.notify_key` at the mapping level: `l = self.kv[k]`
(the `defaultdict` installs an empty queue if absent), then the in-order
first-match deletion on `l`. -/
def notifyKeyQ (qs : Queues) (k : Bytes) (v : Value) : Queues :=
  aset qs k (notifyKey (getQ qs k) v).1

/-- The full server state the claims touch: keyspace plus waiter queues. -/
structure StorageSt where
  kv : Keyspace
  blocking : Queues

/-- The body of `Storage.rpush` inside its `notify_blocked` wrapper:
`v = self.kv.setdefault(k, List())`, the `isinstance` check, then
`v.rpush(xs)` (the f-string of the error message is abstracted). -/
def rpushInner (kv : Keyspace) (k : Bytes) (xs : List Bytes) :
    Keyspace × Except PyErr Nat :=
  match alookup kv k with
  | none => (aset kv k (.list xs), .ok xs.length)
  | some (.list l) => (aset kv k (.list (l ++ xs)), .ok (l ++ xs).length)
  | some _ => (kv, .error (.redis "key is not list"))

/-- The body of `Storage.lpush` inside its `notify_blocked` wrapper. -/
def lpushInner (kv : Keyspace) (k : Bytes) (xs : List Bytes) :
    Keyspace × Except PyErr Nat :=
  match alookup kv k with
  | none => (aset kv k (.list (xs.reverse ++ [])), .ok (xs.reverse ++ []).length)
  | some (.list l) => (aset kv k (.list (xs.reverse ++ l)), .ok (xs.reverse ++ l).length)
  | some _ => (kv, .error (.redis "key is not list"))

/-- The `notify_blocked` decorator applied to a push body: run the body; if
it raised, propagate; otherwise look up `self.kv[k]` (a raising `dict`
index — `KeyError` if absent) and feed it to `notify_key`.  The completion
side effect of a satisfied waiter is inside the waiter object (see
`notifyKey`). -/
def pushNotify (body : Keyspace → Bytes → List Bytes → Keyspace × Except PyErr Nat)
    (st : StorageSt) (k : Bytes) (xs : List Bytes) : StorageSt × Except PyErr Nat :=
  match body st.kv k xs with
  | (kv1, .error e) => ({ st with kv := kv1 }, .error e)
  | (kv1, .ok n) =>
    match alookup kv1 k with
    | none => ({ st with kv := kv1 }, .error .keyError)
    | some v => ({ kv := kv1, blocking := notifyKeyQ st.blocking k v }, .ok n)

theorem rpushInner_key_present (kv : Keyspace) (k : Bytes) (xs : List Bytes) :
    ∀ n, (rpushInner kv k xs).2 = .ok n →
      ∃ l, alookup (rpushInner kv k xs).1 k = some (.list l) := by
  intro n
  unfold rpushInner
  rcases alookup kv k with _ | v
  · intro h
    exact ⟨xs, alookup_aset kv k (.list xs)⟩
  · cases v with
    | str v2 e =>
      intro h
      exact absurd h (by simp)
    | list l =>
      intro h
      exact ⟨l ++ xs, alookup_aset kv k (.list (l ++ xs))⟩
    | stream s =>
      intro h
      exact absurd h (by simp)

theorem rpushInner_no_keyerror (kv : Keyspace) (k : Bytes) (xs : List Bytes) :
    (rpushInner kv k xs).2 ≠ .error PyErr.keyError := by
  unfold rpushInner
  rcases alookup kv k with _ | v
  · simp
  · cases v <;> simp

theorem lpushInner_key_present (kv : Keyspace) (k : Bytes) (xs : List Bytes) :
    ∀ n, (lpushInner kv k xs).2 = .ok n →
      ∃ l, alookup (lpushInner kv k xs).1 k = some (.list l) := by
  intro n
  unfold lpushInner
  rcases alookup kv k with _ | v
  · intro h
    exact ⟨xs.reverse ++ [], alookup_aset kv k (.list (xs.reverse ++ []))⟩
  · cases v with
    | str v2 e =>
      intro h
      exact absurd h (by simp)
    | list l =>
      intro h
      exact ⟨xs.reverse ++ l, alookup_aset kv k (.list (xs.reverse ++ l))⟩
    | stream s =>
      intro h
      exact absurd h (by simp)

theorem lpushInner_no_keyerror (kv : Keyspace) (k : Bytes) (xs : List Bytes) :
    (lpushInner kv k xs).2 ≠ .error PyErr.keyError := by
  unfold lpushInner
  rcases alookup kv k with _ | v
  · simp
  · cases v <;> simp

/-- C10: for every `rpush` or `lpush` call that returns normally, the key
is present afterwards (a list value is created if it was absent), so the
post-mutation `self.kv[k]` lookup in the `notify_blocked` wrapper never
raises `KeyError`. -/
theorem push_notify_never_keyerror (st : StorageSt) (k : Bytes) (xs : List Bytes) :
    (pushNotify rpushInner st k xs).2 ≠ .error PyErr.keyError ∧
    (pushNotify lpushInner st k xs).2 ≠ .error PyErr.keyError ∧
    (∀ n, (pushNotify rpushInner st k xs).2 = .ok n →
      ∃ l, alookup (pushNotify rpushInner st k xs).1.kv k = some (.list l)) ∧
    (∀ n, (pushNotify lpushInner st k xs).2 = .ok n →
      ∃ l, alookup (pushNotify lpushInner st k xs).1.kv k = some (.list l)) := by
  have main : ∀ body,
      (∀ kv2 : Keyspace, ∀ n, (body kv2 k xs).2 = .ok n →
        ∃ l, alookup (body kv2 k xs).1 k = some (.list l)) →
      (∀ kv2 : Keyspace, (body kv2 k xs).2 ≠ .error PyErr.keyError) →
      (pushNotify body st k xs).2 ≠ .error PyErr.keyError ∧
      (∀ n, (pushNotify body st k xs).2 = .ok n →
        ∃ l, alookup (pushNotify body st k xs).1.kv k = some (.list l)) := by
    intro body hbody hne
    unfold pushNotify
    rcases hb : body st.kv k xs with ⟨kv1, res⟩
    rcases res with e | n
    · have he : e ≠ PyErr.keyError := by
        have := hne st.kv
        rw [hb] at this
        simpa using this
      simp [he]
    · have hpres := hbody st.kv n (by rw [hb])
      rw [hb] at hpres
      dsimp only at hpres ⊢
      obtain ⟨l, hl⟩ := hpres
      rw [hl]
      constructor
      · simp
      · intro n2 h2
        exact ⟨l, hl⟩
  have hr := main rpushInner (fun kv2 => rpushInner_key_present kv2 k xs)
    (fun kv2 => rpushInner_no_keyerror kv2 k xs)
  have hl := main lpushInner (fun kv2 => lpushInner_key_present kv2 k xs)
    (fun kv2 => lpushInner_no_keyerror kv2 k xs)
  exact ⟨hr.1, hl.1, hr.2, hl.2⟩

/-- Witness for `push_notify_never_keyerror`: pushing onto a previously
absent key succeeds and leaves a list stored there. -/
theorem push_notify_never_keyerror_witness :
    (pushNotify rpushInner ⟨[], []⟩ [107] [[97]]).2 ≠ .error PyErr.keyError ∧
    (∃ l, alookup (pushNotify rpushInner ⟨[], []⟩ [107] [[97]]).1.kv [107] =
      some (.list l)) :=
  ⟨(push_notify_never_keyerror ⟨[], []⟩ [107] [[97]]).1,
   (push_notify_never_keyerror ⟨[], []⟩ [107] [[97]]).2.2.1 1 rfl⟩

/-! ## BLPOP (`Storage.blpop`)

The connection-handler dispatch for `BLPOP k timeout` is spec-modelled
(§6 `BLPOP k timeout → *[k, x] | *-1`): the stale handler in
`src/app/main.py` predates it (its only BLPOP case matches the literal
timeout `b"0"` and calls `blpop` without the timeout argument the current
`Storage.blpop` requires).  `Storage.blpop` itself is embedded from the
source below.  The decimal-seconds timeout is the value of the source's
`float(timeout)` parse, modelled as a rational; the cross-task result of
`asyncio.wait` on the request's future is supplied as an oracle. -/

/-- Outcome of the `asyncio.wait` on the request's future. -/
inductive BlpopOutcome
  | resolved (x : Bytes)
  | timedOut

/-- Whether `Storage.blpop` awaited, and with which bound: `none` is the
`timeout=None` argument to `asyncio.wait`, i.e. wait forever. -/
inductive WaitInfo
  | noWait
  | waited (bound : Option ℚ)
deriving DecidableEq

/-- The BLPOP reply: the `[k, x]` pair or the `NullArray`. -/
inductive BlpopReply
  | pair (k x : Bytes)
  | nullArr
deriving DecidableEq

/-- `BlockingDispatcher.add_block_request`: append to the key's queue
(`defaultdict` semantics). -/
def addBlockRequest (qs : Queues) (k : Bytes) (r : BlockReq) : Queues :=
  aset qs k (getQ qs k ++ [r])

/-- Python `list.remove` by object identity: drop the first request with
the given identity. -/
def removeFirstId : List BlockReq → Nat → List BlockReq
  | [], _ => []
  | r :: rest, i => if r.id = i then rest else r :: removeFirstId rest i

/-- `BlockingDispatcher.remove_block_request`. -/
def removeBlockRequest (qs : Queues) (k : Bytes) (i : Nat) : Queues :=
  aset qs k (removeFirstId (getQ qs k) i)

/-- The suspended tail of `Storage.blpop` (after the fast path found no
element): register a fresh `BLPopRequest`, await with
`timeout = None if timeoutf == 0 else timeoutf`; on completion reply
`(k, x)`; on timeout remove the request and reply `NullArray`.  In the
completed case the queue entry was already deleted by the notifier's
`notify_key`, an action belonging to the writing task, so the state
returned here carries the registration-time queue. -/
def blpopWait (st : StorageSt) (k : Bytes) (timeoutf : ℚ) (reqId : Nat)
    (oracle : BlpopOutcome) : StorageSt × Except PyErr (BlpopReply × WaitInfo) :=
  let st1 : StorageSt :=
    { st with blocking := addBlockRequest st.blocking k ⟨reqId, blpopNotifyPred⟩ }
  let bound : Option ℚ := if timeoutf = 0 then none else some timeoutf
  match oracle with
  | .resolved x => (st1, .ok (.pair k x, .waited bound))
  | .timedOut =>
    ({ st1 with blocking := removeBlockRequest st1.blocking k reqId },
     .ok (.nullArr, .waited bound))

/-- `Storage.blpop`: wrong-kind values raise; a non-empty list pops its
head and replies `(k, head)` with no suspension; a missing key or an
empty list falls through to the blocking tail. -/
def blpop (st : StorageSt) (k : Bytes) (timeoutf : ℚ) (reqId : Nat)
    (oracle : BlpopOutcome) : StorageSt × Except PyErr (BlpopReply × WaitInfo) :=
  match alookup st.kv k with
  | some (.list (x :: xs)) =>
    ({ st with kv := aset st.kv k (.list xs) }, .ok (.pair k x, .noWait))
  | some (.str _ _) => (st, .error (.redis "key is not list"))
  | some (.stream _) => (st, .error (.redis "key is not list"))
  | none => blpopWait st k timeoutf reqId oracle
  | some (.list []) => blpopWait st k timeoutf reqId oracle

theorem removeFirstId_append_fresh (q : List BlockReq) (i : Nat) (p : Value → Bool)
    (h : i ∉ q.map (fun r => r.id)) :
    removeFirstId (q ++ [⟨i, p⟩]) i = q := by
  induction q with
  | nil => simp [removeFirstId]
  | cons r rest ih =>
    have hr : r.id ≠ i := by
      intro he
      exact h (by simp [he])
    have h' : i ∉ rest.map (fun r => r.id) := by
      intro hm
      exact h (by simp [hm])
    simp only [List.cons_append, removeFirstId, hr, if_false, List.append_eq]
    rw [ih h']

theorem getQ_aset (qs : Queues) (k : Bytes) (l : List BlockReq) :
    getQ (aset qs k l) k = l := by
  unfold getQ
  rw [alookup_aset]
  rfl

theorem blpopWait_bound {st : StorageSt} {k : Bytes} {t : ℚ} {rid : Nat}
    {o : BlpopOutcome} {st2 : StorageSt} {r : BlpopReply} {b : Option ℚ}
    (h : blpopWait st k t rid o = (st2, .ok (r, .waited b))) :
    b = if t = 0 then none else some t := by
  unfold blpopWait at h
  cases o with
  | resolved x =>
    dsimp only at h
    have hb := congrArg Prod.snd h
    dsimp only at hb
    injection hb with hb2
    injection hb2 with hb3 hb4
    injection hb4 with hb5
    exact hb5.symm
  | timedOut =>
    dsimp only at h
    have hb := congrArg Prod.snd h
    dsimp only at hb
    injection hb with hb2
    injection hb2 with hb3 hb4
    injection hb4 with hb5
    exact hb5.symm

/-- C2: for every BLPOP with key `k` and decimal-seconds timeout: a
non-empty list replies `[k, head]` immediately (no suspension) and pops
the head; whenever the operation suspends, the wait bound passed to
`asyncio.wait` is `None` — wait forever — exactly when the timeout is `0`;
and when a non-zero timeout expires, the freshly registered waiter is
removed from its queue, the keyspace is untouched, and the reply is the
null array. -/
theorem blpop_contract (st : StorageSt) (k : Bytes) (t : ℚ) (rid : Nat)
    (o : BlpopOutcome) :
    (∀ x xs, alookup st.kv k = some (.list (x :: xs)) →
      blpop st k t rid o =
        ({ st with kv := aset st.kv k (.list xs) }, .ok (.pair k x, .noWait))) ∧
    (∀ st2 r b, blpop st k t rid o = (st2, .ok (r, .waited b)) →
      (b = none ↔ t = 0)) ∧
    ((alookup st.kv k = none ∨ alookup st.kv k = some (.list [])) →
      rid ∉ (getQ st.blocking k).map (fun r => r.id) →
      o = .timedOut → t ≠ 0 →
      (blpop st k t rid o).1.kv = st.kv ∧
      getQ (blpop st k t rid o).1.blocking k = getQ st.blocking k ∧
      (blpop st k t rid o).2 = .ok (.nullArr, .waited (some t))) := by
  have hwait : ∀ hv : alookup st.kv k = none ∨ alookup st.kv k = some (.list []),
      blpop st k t rid o = blpopWait st k t rid o := by
    intro hv
    unfold blpop
    rcases hv with hv | hv <;> rw [hv]
  refine ⟨?_, ?_, ?_⟩
  · intro x xs h
    unfold blpop
    rw [h]
  · intro st2 r b
    have hbnd : b = (if t = 0 then none else some t) → (b = none ↔ t = 0) := by
      intro hb
      subst hb
      by_cases ht : t = 0 <;> simp [ht]
    unfold blpop
    rcases hv : alookup st.kv k with _ | v
    · intro h
      exact hbnd (blpopWait_bound h)
    · cases v with
      | str v2 e =>
        intro h
        have hb := congrArg Prod.snd h
        dsimp only at hb
        exact absurd hb (by simp)
      | stream s2 =>
        intro h
        have hb := congrArg Prod.snd h
        dsimp only at hb
        exact absurd hb (by simp)
      | list l =>
        cases l with
        | nil =>
          intro h
          exact hbnd (blpopWait_bound h)
        | cons x xs =>
          intro h
          have hb := congrArg Prod.snd h
          dsimp only at hb
          injection hb with hb2
          injection hb2 with hb3 hb4
          exact absurd hb4 (by simp)
  · intro hv hfresh ho ht
    rw [hwait hv]
    subst ho
    unfold blpopWait
    dsimp only
    rw [if_neg ht]
    refine ⟨rfl, ?_, rfl⟩
    unfold removeBlockRequest addBlockRequest
    rw [getQ_aset, getQ_aset, removeFirstId_append_fresh _ _ _ hfresh]

/-- Witness for `blpop_contract`: a concrete immediate pop off a two
element list, a concrete suspended call with timeout `0` whose wait bound
is `None`, and a concrete expired non-zero timeout leaving the state
unchanged. -/
theorem blpop_contract_witness :
    blpop ⟨[([107], Value.list [[97], [98]])], []⟩ [107] 1 5 .timedOut =
      (⟨[([107], Value.list [[98]])], []⟩, .ok (.pair [107] [97], .noWait)) ∧
    ((none : Option ℚ) = none ↔ (0 : ℚ) = 0) ∧
    (blpop ⟨[], []⟩ [107] 1 5 .timedOut).1.kv = [] ∧
    getQ (blpop ⟨[], []⟩ [107] 1 5 .timedOut).1.blocking [107] =
      getQ ([] : Queues) [107] ∧
    (blpop ⟨[], []⟩ [107] 1 5 .timedOut).2 = .ok (.nullArr, .waited (some 1)) := by
  refine ⟨?_, ?_, ?_, ?_, ?_⟩
  · exact (blpop_contract ⟨[([107], Value.list [[97], [98]])], []⟩ [107] 1 5
      .timedOut).1 [97] [[98]] rfl
  · exact (blpop_contract ⟨[], []⟩ [107] 0 5 (.resolved [97])).2.1
      ⟨[], [([107], [⟨5, blpopNotifyPred⟩])]⟩ (.pair [107] [97]) none rfl
  · exact ((blpop_contract ⟨[], []⟩ [107] 1 5 .timedOut).2.2 (Or.inl rfl)
      (by simp [getQ, alookup]) rfl (by norm_num)).1
  · exact ((blpop_contract ⟨[], []⟩ [107] 1 5 .timedOut).2.2 (Or.inl rfl)
      (by simp [getQ, alookup]) rfl (by norm_num)).2.1
  · exact ((blpop_contract ⟨[], []⟩ [107] 1 5 .timedOut).2.2 (Or.inl rfl)
      (by simp [getQ, alookup]) rfl (by norm_num)).2.2

/-- Witness for `xadd_ids_monotonic`: two auto-id XADDs at the same
wall-clock millisecond produce the strictly increasing ids
`(5,0), (5,1)`, both above `(0,0)`. -/
theorem xadd_ids_monotonic_witness :
    List.Pairwise (fun a b => idLt a.id b.id)
      (applyXadds [] [⟨5, .star, []⟩, ⟨5, .star, []⟩]) ∧
    idLt ⟨0, 0⟩ (⟨⟨5, 1⟩, []⟩ : StreamEntry).id :=
  ⟨(xadd_ids_monotonic [⟨5, .star, []⟩, ⟨5, .star, []⟩]).1,
   (xadd_ids_monotonic [⟨5, .star, []⟩, ⟨5, .star, []⟩]).2 ⟨⟨5, 1⟩, []⟩ (by decide)⟩
